import Mathlib

/-!
Verification of the `easy_iterator` single-header iteration toolkit
(`include/easy_iterator.h`).

The header is embedded shallowly:

* a cursor's state is its `std::optional<T> current` field, modelled as
  `Option α`; `none` is the exhausted state;
* the strategy functors (`compare::*`, `increment::*`) become plain Lean
  functions;
* `Iterator::operator*` can throw `UndefinedIteratorException`, so it is
  modelled in `Except`; all operations whose C++ body reads `*v` from a
  possibly-empty `std::optional` (undefined behaviour when empty) return an
  outer `Option`, where the outer `none` marks the undefined execution;
* the range-for loop `for (auto x : w) …` over a `WrappedIterator` is the
  loop "while `begin != end` yield `*begin`; `++begin`", modelled with
  explicit fuel (`traceFrom`, `zip2Trace`, `enumTrace`); fuel is a modelling
  device only — every theorem either fixes enough fuel for the loop to reach
  its exit condition or quantifies over sufficient fuel;
* the iterators handed to `zip` by a standard container are modelled as list
  suffixes: `++` is `List.tail`, `*` is `List.head?` (`none` = undefined
  read past the end), and comparison with the container's `end()` iterator
  is comparison with the empty suffix.
-/

namespace EasyIterator

namespace compare

/-- `compare::ByValue`: `return a == b;`. -/
def ByValue {α : Type} [DecidableEq α] (a b : α) : Bool :=
  decide (a = b)

/-- `compare::ByLastTupleElementMatch`: compares only the last element of the
two tuples with `==` (`std::get<sizeof...(Args)-1>`); specialised to pairs,
the shape `zip`/`enumerate` build for two sequences. -/
def ByLastTupleElementMatch {α β : Type} [DecidableEq β] (a b : α × β) : Bool :=
  decide (a.2 = b.2)

/-- `compare::Never`: `return false;`. -/
def Never {α : Type} (_ _ : α) : Bool :=
  false

end compare

namespace increment

/-- `increment::ByValue<A>::operator()(std::optional<T> &v)`: `*v = *v + A;`.
Reading `*v` from an empty optional is undefined behaviour, so the result is
an outer `Option`: `none` marks the undefined execution, `some s` the new
optional state `s`. Instantiated at `T = int`. -/
def ByValue (A : Int) : Option Int → Option (Option Int)
  | some v => some (some (v + A))
  | none => none

end increment

/-- `UndefinedIteratorException`: the one exception type of the header, thrown
by `Iterator::operator*` on an undefined (exhausted) iterator. -/
inductive UndefinedIteratorException : Type where
  | mk : UndefinedIteratorException
deriving DecidableEq

/-- `Iterator::operator*`: `if (!*this) { throw UndefinedIteratorException(); }
return dereferencer(*current);`. -/
def Iterator.deref {α β : Type} (dereferencer : α → β) (current : Option α) :
    Except UndefinedIteratorException β :=
  match current with
  | none => Except.error UndefinedIteratorException.mk
  | some v => Except.ok (dereferencer v)

/-- State-passing form of `Iterator::operator*`. The C++ member is `const`
and its body contains no assignment to `current` (it only throws or reads
`dereferencer(*current)`), so the state component of the result is the
incoming `current` unchanged. -/
def Iterator.derefSt {α β : Type} (dereferencer : α → β) (current : Option α) :
    Except UndefinedIteratorException β × Option α :=
  (Iterator.deref dereferencer current, current)

/-- `Iterator::operator==`: `if (!*this) { return !other; } if (!other)
{ return false; } return compare(*current, *other.current);`. -/
def Iterator.beq {α : Type} (compare : α → α → Bool) (a b : Option α) : Bool :=
  match a with
  | none => b.isNone
  | some x =>
    match b with
    | none => false
    | some y => compare x y

/-- `Iterator::operator bool`: `return bool(current);` — the liveness test. -/
def Iterator.isLive {α : Type} (current : Option α) : Bool :=
  current.isSome

/-- `CallbackIterator::advance`: `callback(value);` — delegates to the stored
callable. The callback gets the mutable optional state; like the increment
strategies it is modelled state-passing with an outer `Option` for undefined
executions. -/
def CallbackIterator.advance {α : Type} (callback : Option α → Option (Option α))
    (value : Option α) : Option (Option α) :=
  callback value

/-- `RangeIterator<T>` (specialised at `T = int`): an `Iterator<T>` holding
`current` plus the fixed `increment` field. -/
structure RangeIterator : Type where
  current : Option Int
  increment : Int

/-- The `RangeIterator(start, increment = 1)` constructor: `Iterator<T>(start)`
wraps `start` into an engaged optional. -/
def RangeIterator.init (start : Int) (increment : Int := 1) : RangeIterator :=
  { current := some start, increment := increment }

/-- `RangeIterator::advance(std::optional<T> &value)`: `*value += increment;`.
Reading `*value` from an empty optional is undefined behaviour: outer `none`
marks the undefined execution, `some s` the new optional state. -/
def RangeIterator.advance (inc : Int) : Option Int → Option (Option Int)
  | some v => some (some (v + inc))
  | none => none

/-- `n` successive `++it` calls on a `RangeIterator` state (each one is
`RangeIterator::advance` on the held optional), chained through the
undefined-behaviour `Option`. -/
def RangeIterator.advanceIter (inc : Int) : Nat → Option Int → Option (Option Int)
  | 0, s => some s
  | n + 1, s => (RangeIterator.advance inc s).bind (RangeIterator.advanceIter inc n)

/-- `WrappedIterator<I>`: the `begin`/`end` bundle returned by `wrap`. -/
structure WrappedIterator (I : Type) : Type where
  beginIterator : I
  endIterator : I

/-- `wrap(a, b)`: bundles two iterators into a `WrappedIterator`. -/
def wrap {I : Type} (a b : I) : WrappedIterator I :=
  ⟨a, b⟩

/-- `range(begin, end, increment)`: `actualEnd = end - ((end - begin) %
increment);` then `wrap(RangeIterator(begin, increment),
RangeIterator(actualEnd, increment))`. C++ `%` on `int` truncates toward
zero, i.e. `Int.tmod`. -/
def range (beginValue endValue increment : Int) : WrappedIterator RangeIterator :=
  wrap (RangeIterator.init beginValue increment)
    (RangeIterator.init (endValue - (endValue - beginValue).tmod increment) increment)

/-- The two-argument `range(begin, end)` overload: `return range<T>(begin, end, 1);`. -/
def range2 (beginValue endValue : Int) : WrappedIterator RangeIterator :=
  range beginValue endValue 1

/-- The one-argument `range(end)` overload: `return range<T>(0, end);`. -/
def range1 (endValue : Int) : WrappedIterator RangeIterator :=
  range2 0 endValue

/-- The range-for loop over a pair of live `RangeIterator`s holding `cur` and
`stop`: while the cursors differ (`Iterator::operator==` on two engaged
optionals is `compare::ByValue` on the scalars), yield the dereferenced scalar
and advance `cur` by `inc` (`RangeIterator::advance` on an engaged optional).
`fuel` bounds the number of loop tests performed. -/
def traceFrom : Nat → Int → Int → Int → List Int
  | 0, _, _, _ => []
  | fuel + 1, cur, stop, inc =>
    if Iterator.beq compare.ByValue (some cur) (some stop) then []
    else cur :: traceFrom fuel (cur + inc) stop inc

/-- The range-for loop over a `WrappedIterator RangeIterator`. Both cursors a
`range` call builds are engaged (`RangeIterator.init` stores `some _`, and
`RangeIterator.advance` keeps an engaged optional engaged), so the loop is
`traceFrom` on the two held scalars; the fallback branch is unreachable for
`range` values. -/
def runRange (fuel : Nat) (w : WrappedIterator RangeIterator) : List Int :=
  match w.beginIterator.current, w.endIterator.current with
  | some b, some e => traceFrom fuel b e w.beginIterator.increment
  | _, _ => []

/-- The range-for loop over `zip(A, B)` for two container sequences, with the
two sub-iterators modelled as list suffixes. The held tuple starts at
`(A.begin(), B.begin())`; the loop guard compares it with `(A.end(), B.end())`
(the empty suffixes) via `compare::ByLastTupleElementMatch`; each step yields
`dereference::ByTupleDereference` of the tuple (`*` of each sub-iterator,
`head?`, `none` marking an undefined read past the end) and then advances
every sub-iterator once (`increment::ByTupleIncrement`, `tail`). -/
def zip2Trace {α β : Type} [DecidableEq β] : Nat → List α × List β → List (Option α × Option β)
  | 0, _ => []
  | fuel + 1, (a, b) =>
    if compare.ByLastTupleElementMatch (a, b) ([], []) then []
    else (a.head?, b.head?) :: zip2Trace fuel (a.tail, b.tail)

/-- `zip(A, B)` traversed by a range-for loop with `fuel` loop tests. -/
def zip {α β : Type} [DecidableEq β] (fuel : Nat) (A : List α) (B : List β) :
    List (Option α × Option β) :=
  zip2Trace fuel (A, B)

/-- The range-for loop over `enumerate(t)` = `zip(wrap(RangeIterator(0),
RangeIterator(0)), t)`. The first sub-iterator is the always-live
`RangeIterator(0)` (held scalar `idx`, `++` adds its default increment 1, `*`
returns the scalar); the second is the container's iterator (a list suffix).
The guard compares the tuple with `(RangeIterator(0), t.end())` through
`compare::ByLastTupleElementMatch`, so only the container's suffix is tested. -/
def enumTrace {α : Type} [DecidableEq α] : Nat → Int × List α → List (Int × Option α)
  | 0, _ => []
  | fuel + 1, (idx, b) =>
    if compare.ByLastTupleElementMatch (idx, b) (0, []) then []
    else (idx, b.head?) :: enumTrace fuel (idx + 1, b.tail)

/-- `enumerate(t)` traversed by a range-for loop with `fuel` loop tests. -/
def enumerate {α : Type} [DecidableEq α] (fuel : Nat) (t : List α) : List (Int × Option α) :=
  enumTrace fuel (0, t)

/-- Advancing a live `RangeIterator` state `n` times is defined and lands on
`x + inc * n`, still live. -/
theorem advanceIter_live (inc : Int) : ∀ (n : Nat) (x : Int),
    RangeIterator.advanceIter inc n (some x) = some (some (x + inc * n)) := by
  intro n
  induction n with
  | zero => intro x; simp [RangeIterator.advanceIter]
  | succ n ih =>
    intro x
    simp only [RangeIterator.advanceIter, RangeIterator.advance, Option.some_bind, ih]
    congr 2
    push_cast
    ring

/-- Unfolding of one loop test of `traceFrom`: on two live cursors the guard
is value comparison of the held scalars. -/
theorem traceFrom_succ (fuel : Nat) (cur stop inc : Int) :
    traceFrom (fuel + 1) cur stop inc =
      if cur = stop then [] else cur :: traceFrom fuel (cur + inc) stop inc := by
  simp [traceFrom, Iterator.beq, compare.ByValue]

/-- With positive increment, the loop from `b` to the stop value `b + inc * k`
runs exactly `k` iterations and yields the arithmetic progression. -/
theorem traceFrom_progression (inc : Int) (hinc : 0 < inc) :
    ∀ (k : Nat) (b : Int) (fuel : Nat), k ≤ fuel →
      traceFrom fuel b (b + inc * (k : Int)) inc
        = (List.range k).map (fun i : Nat => b + inc * (i : Int)) := by
  intro k
  induction k with
  | zero =>
    intro b fuel _
    cases fuel with
    | zero => simp [traceFrom]
    | succ f => simp [traceFrom_succ]
  | succ k ih =>
    intro b fuel hf
    cases fuel with
    | zero => omega
    | succ f =>
      have hpos : (0 : Int) < inc * ((k : Int) + 1) := by positivity
      have hne : b ≠ b + inc * (((k : Nat) + 1 : Nat) : Int) := by
        push_cast
        exact ne_of_lt (by linarith)
      rw [traceFrom_succ, if_neg hne]
      have hshift : b + inc * (((k : Nat) + 1 : Nat) : Int) = (b + inc) + inc * (k : Int) := by
        push_cast
        ring
      rw [hshift, ih (b + inc) f (by omega), List.range_succ_eq_map, List.map_cons,
        List.map_map]
      norm_num
      intro a _
      ring

/-- The traversal of a `range` value is `traceFrom` on the two held scalars. -/
theorem runRange_range (fuel : Nat) (b e inc : Int) :
    runRange fuel (range b e inc) = traceFrom fuel b (e - (e - b).tmod inc) inc := rfl

/-- C1 (amended): for `beginValue ≤ endValue` and positive `step`, the
traversal of `range(beginValue, endValue, step)` yields exactly
`⌊(endValue − beginValue) / step⌋` values (the floor, not the ceiling), the
first being `beginValue`, the `i`-th being `beginValue + step * i`, and
`endValue` itself is never yielded when `endValue − beginValue` is an exact
multiple of `step`; in particular `range(2,10,3)` yields `[2,5]`. -/
theorem range_trace_c1 (b e inc : Int) (hbe : b ≤ e) (hinc : 0 < inc) (fuel : Nat)
    (hf : ((e - b) / inc).toNat ≤ fuel) :
    runRange fuel (range b e inc)
      = (List.range ((e - b) / inc).toNat).map (fun i : Nat => b + inc * (i : Int))
    ∧ ((e - b) % inc = 0 → e ∉ runRange fuel (range b e inc)) := by
  have hmod : (e - b).tmod inc = (e - b) % inc :=
    Int.tmod_eq_emod (by omega) (le_of_lt hinc)
  have hdm := Int.ediv_add_emod (e - b) inc
  have hqnn : 0 ≤ (e - b) / inc := Int.ediv_nonneg (by omega) (le_of_lt hinc)
  have hq : (((e - b) / inc).toNat : Int) = (e - b) / inc := Int.toNat_of_nonneg hqnn
  have hstop : e - (e - b).tmod inc = b + inc * ((((e - b) / inc).toNat : Nat) : Int) := by
    rw [hmod, hq]
    linarith
  have htrace : runRange fuel (range b e inc)
      = (List.range ((e - b) / inc).toNat).map (fun i : Nat => b + inc * (i : Int)) := by
    rw [runRange_range, hstop, traceFrom_progression inc hinc _ b fuel hf]
  refine ⟨htrace, ?_⟩
  intro hrem hmem
  rw [htrace] at hmem
  simp only [List.mem_map, List.mem_range] at hmem
  obtain ⟨i, hi, hie⟩ := hmem
  have he : e = b + inc * ((e - b) / inc) := by linarith [hdm, hrem]
  have hmul : inc * (i : Int) = inc * ((e - b) / inc) := by linarith [hie, he]
  have hiq : (i : Int) = (e - b) / inc := mul_left_cancel₀ (ne_of_gt hinc) hmul
  have hieq : i = ((e - b) / inc).toNat := by exact_mod_cast hiq.trans hq.symm
  exact Nat.ne_of_lt hi hieq

/-- C1 witness: the amended statement at `range(2,10,3)` with fuel 4. -/
theorem range_trace_c1_witness :
    runRange 4 (range 2 10 3)
      = (List.range (((10 : Int) - 2) / 3).toNat).map (fun i : Nat => 2 + 3 * (i : Int))
    ∧ (((10 : Int) - 2) % 3 = 0 → (10 : Int) ∉ runRange 4 (range 2 10 3)) :=
  range_trace_c1 2 10 3 (by decide) (by decide) 4 (by decide)

/-- C1 counterexample: `range(2,10,3)` traverses to `[2,5]` — the begin cursor
stops on first equality with the end cursor's scalar 8 without yielding it —
not the claimed `[2,5,8]` of `⌈(10−2)/3⌉ = 3` values; more fuel changes
nothing, the loop has already terminated. -/
theorem range_trace_c1_counterexample :
    runRange 4 (range 2 10 3) = [2, 5]
    ∧ runRange 100 (range 2 10 3) = [2, 5]
    ∧ runRange 4 (range 2 10 3) ≠ [2, 5, 8]
    ∧ (runRange 4 (range 2 10 3)).length ≠ 3 :=
  ⟨by decide, by decide, by decide, by decide⟩

/-- C2 (amended): for `beginValue ≤ endValue` and positive `step`, `range`
builds its end cursor holding `endValue − ((endValue − beginValue) mod step)`,
that value is congruent to `beginValue` modulo `step` and `≤ endValue`, and
the begin cursor advanced repeatedly by `step` from `beginValue` reaches it by
exact equality. -/
theorem range_end_c2 (b e inc : Int) (hbe : b ≤ e) (hinc : 0 < inc) :
    (range b e inc).endIterator.current = some (e - (e - b).tmod inc)
    ∧ (e - (e - b).tmod inc) % inc = b % inc
    ∧ e - (e - b).tmod inc ≤ e
    ∧ (∃ k : Nat, RangeIterator.advanceIter inc k (some b)
        = some (some (e - (e - b).tmod inc))) := by
  have hmod : (e - b).tmod inc = (e - b) % inc :=
    Int.tmod_eq_emod (by omega) (le_of_lt hinc)
  have hdm := Int.ediv_add_emod (e - b) inc
  have hqnn : 0 ≤ (e - b) / inc := Int.ediv_nonneg (by omega) (le_of_lt hinc)
  have hstop : e - (e - b).tmod inc = b + inc * ((e - b) / inc) := by
    rw [hmod]
    linarith
  refine ⟨rfl, ?_, ?_, ?_⟩
  · rw [hstop]
    exact Int.add_mul_emod_self_left b inc ((e - b) / inc)
  · rw [hmod]
    have := Int.emod_nonneg (e - b) (ne_of_gt hinc)
    omega
  · refine ⟨((e - b) / inc).toNat, ?_⟩
    rw [advanceIter_live, hstop, Int.toNat_of_nonneg hqnn]

/-- C2 witness: the amended statement at `range(2,10,3)`. -/
theorem range_end_c2_witness :
    (range 2 10 3).endIterator.current = some (10 - ((10 : Int) - 2).tmod 3)
    ∧ (10 - ((10 : Int) - 2).tmod 3) % 3 = 2 % 3
    ∧ 10 - ((10 : Int) - 2).tmod 3 ≤ 10
    ∧ (∃ k : Nat, RangeIterator.advanceIter 3 k (some 2)
        = some (some (10 - ((10 : Int) - 2).tmod 3))) :=
  range_end_c2 2 10 3 (by decide) (by decide)

/-- C2 counterexample: at `range(10, 2, 3)` — beginValue 10, endValue 2,
step 3, a nonzero step the claim covers — the end cursor holds
`2 − ((2 − 10) % 3) = 4`, which is not `≤ 2`: the claimed bound on the end
cursor's scalar fails. -/
theorem range_end_c2_counterexample :
    (range 10 2 3).endIterator.current = some 4 ∧ ¬ ((4 : Int) ≤ 2) :=
  ⟨by decide, by decide⟩

/-- The zip loop with the last-listed sequence at least as short as the
earlier one yields exactly the element-wise pairs `A.zip B`: one step per
element of `B`, both sub-cursors advanced once per step. -/
theorem zip2Trace_eq {α β : Type} [DecidableEq β] :
    ∀ (B : List β) (A : List α) (fuel : Nat), B.length ≤ A.length → B.length ≤ fuel →
      zip2Trace fuel (A, B) = (A.zip B).map (fun p => (some p.1, some p.2)) := by
  intro B
  induction B with
  | nil =>
    intro A fuel _ _
    cases fuel with
    | zero => simp [zip2Trace]
    | succ f => simp [zip2Trace, compare.ByLastTupleElementMatch]
  | cons x xs ih =>
    intro A fuel hlen hfuel
    cases A with
    | nil => simp at hlen
    | cons a as =>
      cases fuel with
      | zero =>
        simp only [List.length_cons] at hfuel
        omega
      | succ f =>
        simp only [zip2Trace, compare.ByLastTupleElementMatch, decide_eq_true_eq,
          List.head?_cons, List.tail_cons, List.zip_cons_cons, List.map_cons]
        rw [if_neg (by simp)]
        simp only [List.length_cons] at hlen hfuel
        rw [ih as f (by omega) (by omega)]

/-- C3: `zip(A, B)` with `B` listed last — each outer advance moves both
sub-cursors exactly one step, each dereference yields the pair of the current
elements in argument order, and the traversal stops exactly when `B`'s cursor
reaches `B`'s end, given the header's caller obligation that earlier
sequences are at least as long as the last; the trace is `A.zip B`, so
`zip([10,20,30], ['a','b','c'])` yields the three pairs and with a
two-element second sequence exactly two. -/
theorem zip_c3 {α β : Type} [DecidableEq β] (A : List α) (B : List β)
    (hlen : B.length ≤ A.length) :
    zip (B.length + 1) A B = (A.zip B).map (fun p => (some p.1, some p.2))
    ∧ (zip (B.length + 1) A B).length = B.length
    ∧ zip 4 ([10, 20, 30] : List Int) (['a', 'b', 'c'] : List Char)
        = [(some 10, some 'a'), (some 20, some 'b'), (some 30, some 'c')]
    ∧ zip 4 ([10, 20, 30] : List Int) (['a', 'b'] : List Char)
        = [(some 10, some 'a'), (some 20, some 'b')] := by
  have h := zip2Trace_eq B A (B.length + 1) hlen (by omega)
  refine ⟨h, ?_, by decide, by decide⟩
  rw [zip, h]
  simp [List.length_zip]
  omega

/-- C3 witness: the statement at `A = [10,20,30]`, `B = ['a','b','c']`. -/
theorem zip_c3_witness :
    zip ((['a', 'b', 'c'] : List Char).length + 1) ([10, 20, 30] : List Int) ['a', 'b', 'c']
        = (([10, 20, 30] : List Int).zip (['a', 'b', 'c'] : List Char)).map
            (fun p => (some p.1, some p.2))
    ∧ (zip ((['a', 'b', 'c'] : List Char).length + 1) ([10, 20, 30] : List Int)
        ['a', 'b', 'c']).length = (['a', 'b', 'c'] : List Char).length
    ∧ zip 4 ([10, 20, 30] : List Int) (['a', 'b', 'c'] : List Char)
        = [(some 10, some 'a'), (some 20, some 'b'), (some 30, some 'c')]
    ∧ zip 4 ([10, 20, 30] : List Int) (['a', 'b'] : List Char)
        = [(some 10, some 'a'), (some 20, some 'b')] :=
  zip_c3 [10, 20, 30] ['a', 'b', 'c'] (by decide)

/-- The enumerate loop from index `idx` over a sequence `B` yields the pairs
`(idx + i, B[i])`, one per element of `B`. -/
theorem enumTrace_eq {α : Type} [DecidableEq α] :
    ∀ (B : List α) (fuel : Nat) (idx : Int), B.length ≤ fuel →
      enumTrace fuel (idx, B)
        = (List.range B.length).map (fun i : Nat => (idx + (i : Int), B.get? i)) := by
  intro B
  induction B with
  | nil =>
    intro fuel idx _
    cases fuel with
    | zero => simp [enumTrace]
    | succ f => simp [enumTrace, compare.ByLastTupleElementMatch]
  | cons x xs ih =>
    intro fuel idx hfuel
    cases fuel with
    | zero => simp at hfuel
    | succ f =>
      simp only [enumTrace, compare.ByLastTupleElementMatch, decide_eq_true_eq,
        List.head?_cons, List.tail_cons]
      rw [if_neg (by simp)]
      simp only [List.length_cons] at hfuel
      rw [ih f (idx + 1) (by omega), List.length_cons, List.range_succ_eq_map,
        List.map_cons, List.map_map]
      norm_num
      intro a _
      ring

/-- C7: `enumerate(t)` zips the always-live index cursor `RangeIterator(0)`
(start 0, default increment 1) in front of the sequence `t`, and the
last-element comparison consults only `t`'s cursor, so termination is governed
solely by `t`'s own end and each produced element is the pair
`(index, value)`; concretely `enumerate(['x','y','z'])` yields
`[(0,'x'), (1,'y'), (2,'z')]`. -/
theorem enumerate_c7 {α : Type} [DecidableEq α] (B : List α) :
    enumerate (B.length + 1) B
      = (List.range B.length).map (fun i : Nat => ((i : Int), B.get? i))
    ∧ (enumerate (B.length + 1) B).length = B.length
    ∧ enumerate 4 (['x', 'y', 'z'] : List Char)
      = [(0, some 'x'), (1, some 'y'), (2, some 'z')] := by
  have h0 := enumTrace_eq B (B.length + 1) 0 (by omega)
  simp only [zero_add] at h0
  refine ⟨h0, ?_, by decide⟩
  show (enumTrace (B.length + 1) (0, B)).length = B.length
  rw [h0]
  simp

/-- C4: dereferencing an exhausted cursor fails with the one catchable error
value `UndefinedIteratorException` (not a silent default); since the failed
dereference leaves the state unchanged, dereferencing again after a failure
fails with the same error; dereferencing a live cursor always succeeds, and
advancing a live arithmetic cursor is always defined. -/
theorem deref_exhausted_c4 {α β : Type} (d : α → β) :
    Iterator.deref d (none : Option α) = Except.error UndefinedIteratorException.mk
    ∧ (Iterator.derefSt d (Iterator.derefSt d (none : Option α)).2).1
        = Except.error UndefinedIteratorException.mk
    ∧ (∀ v : α, ∃ r, Iterator.deref d (some v) = Except.ok r)
    ∧ (∀ inc x : Int, RangeIterator.advance inc (some x) = some (some (x + inc))) :=
  ⟨rfl, rfl, fun v => ⟨d v, rfl⟩, fun _ _ => rfl⟩

/-- C5: `Iterator::operator==` returns true on two exhausted cursors, false
when exactly one side is exhausted, and the bound comparison strategy's result
when both are live; when either side is exhausted the result does not depend
on the comparison strategy at all (the strategy is never consulted). -/
theorem beq_cases_c5 {α : Type} (c : α → α → Bool) :
    Iterator.beq c (none : Option α) none = true
    ∧ (∀ x : α, Iterator.beq c (some x) none = false ∧ Iterator.beq c none (some x) = false)
    ∧ (∀ x y : α, Iterator.beq c (some x) (some y) = c x y)
    ∧ (∀ (c' : α → α → Bool) (a b : Option α), a = none ∨ b = none →
        Iterator.beq c a b = Iterator.beq c' a b) := by
  refine ⟨rfl, fun x => ⟨rfl, rfl⟩, fun x y => rfl, ?_⟩
  rintro c' a b (rfl | rfl)
  · rfl
  · cases a <;> rfl

/-- C6 (amended): advancing a live arithmetic cursor is well-defined and adds
the increment, but advancing an exhausted cursor reads `*value` from an empty
optional — with the header's increment strategies the undefined branch is
reached, whether through `RangeIterator::advance`, `increment::ByValue`, or a
`CallbackIterator` whose callback is `increment::ByValue`. -/
theorem advance_exhausted_c6 (inc : Int) :
    (∀ x : Int, RangeIterator.advance inc (some x) = some (some (x + inc)))
    ∧ RangeIterator.advance inc none = none
    ∧ increment.ByValue inc none = none
    ∧ CallbackIterator.advance (increment.ByValue inc) none = none :=
  ⟨fun _ => rfl, rfl, rfl, rfl⟩

/-- C6 counterexample: `RangeIterator::advance` with increment 1 on an
exhausted cursor reaches the undefined read of the empty optional (outer
`none`); it is not the claimed well-defined step that leaves the cursor
exhausted (which would be `some none`). -/
theorem advance_exhausted_c6_counterexample :
    RangeIterator.advance 1 none = none ∧ RangeIterator.advance 1 none ≠ some none := by
  exact ⟨rfl, by decide⟩

/-- C8: any number of advances of a live arithmetic-progression cursor is
defined, lands on `start + increment * n`, and the cursor is still live —
its own advance never produces exhaustion. -/
theorem range_advance_live_c8 (inc x : Int) (n : Nat) :
    RangeIterator.advanceIter inc n (some x) = some (some (x + inc * n))
    ∧ Iterator.isLive (some (x + inc * n)) = true :=
  ⟨advanceIter_live inc n x, rfl⟩

/-- C9: the two-argument `range` overload is `range` with step 1, the
one-argument overload is `range` from 0 with step 1, and `range(5)` traverses
to `[0, 1, 2, 3, 4]`. -/
theorem range_defaults_c9 :
    (∀ b e : Int, range2 b e = range b e 1)
    ∧ (∀ e : Int, range1 e = range 0 e 1)
    ∧ runRange 6 (range1 5) = [0, 1, 2, 3, 4] := by
  refine ⟨fun b e => rfl, fun e => rfl, ?_⟩
  decide

/-- C10: `Iterator::operator*` leaves the cursor's held optional exactly as it
was, both when it returns a value (live cursor) and when it throws
(exhausted cursor). -/
theorem deref_frame_c10 {α β : Type} (d : α → β) (current : Option α) :
    (Iterator.derefSt d current).2 = current
    ∧ (current = none →
        (Iterator.derefSt d current).1 = Except.error UndefinedIteratorException.mk)
    ∧ (∀ v, current = some v → (Iterator.derefSt d current).1 = Except.ok (d v)) := by
  refine ⟨rfl, ?_, ?_⟩
  · rintro rfl; rfl
  · rintro v rfl; rfl

end EasyIterator
